import Mathlib

/-!
A verification development for the summarization core of `daily_report.py`
(Daily-Work-Report-Automation).  The Python functions `hf_post`,
`extract_summary_from_response`, `split_to_bullets`, `bulletify_tasks` and
`summarize_team_tasks` are shallowly embedded as executable Lean functions.

Remote I/O is abstracted by oracles:
  * one `hf_post` invocation is parametrised by an attempt oracle
    `att : Nat → Option PyVal`, where `att k = some v` means the HTTP request
    of attempt `k` (1-based, as in the Python loop) succeeds and its JSON body
    decodes to `v`, and `att k = none` means the request raises a
    `requests.exceptions.RequestException` (network error, non-2xx status, or
    timeout);
  * the pipeline `summarize_team_tasks` is parametrised by an environment
    `env : Nat → String → Nat → Option PyVal` giving, for the `i`-th `hf_post`
    call of the run (0-based) with payload text `t`, the attempt oracle
    `env i t` of that call.  Quantifying over `env` quantifies over every
    behaviour of the remote summarizer.

Python strings are modelled through `String` (a list of characters, matching
CPython's code-point view for the ASCII texts involved); whitespace and the
regular expressions of the source are modelled character by character below.
-/

namespace DailyReport

/-- A Python/JSON value as far as `extract_summary_from_response` inspects it:
`none` is Python `None`, `str`/`list`/`dict` are the shapes the function
tests with `isinstance`, and `other` stands for any further value (numbers,
booleans, ...) which matches none of its rules. -/
inductive PyVal where
  | none
  | str (s : String)
  | list (xs : List PyVal)
  | dict (fields : List (String × PyVal))
  | other

/-- The whitespace characters matched by Python's `str.strip()` and by `\s`
in the source's regular expressions, restricted to ASCII. -/
def isPySpace (c : Char) : Bool :=
  c == ' ' || c == '\t' || c == '\n' || c == '\r' || c == '\x0b' || c == '\x0c'

/-- The terminal sentence punctuation set `'.!?'` used by
`split_to_bullets` (both in the split lookbehind and in `rstrip('.!?')`). -/
def isSentPunct (c : Char) : Bool :=
  c == '.' || c == '!' || c == '?'

/-- Python `str.strip()` on a character list: drop leading and trailing
whitespace. -/
def pyStripList (l : List Char) : List Char :=
  ((l.dropWhile isPySpace).reverse.dropWhile isPySpace).reverse

/-- Python `str.strip()`. -/
def pyStrip (s : String) : String :=
  String.mk (pyStripList s.data)

/-- Python `str.rstrip('.!?')`: drop trailing characters of the set `.!?`. -/
def pyRstripPunct (s : String) : String :=
  String.mk ((s.data.reverse.dropWhile isSentPunct).reverse)

/-- Python slicing `s[:n]` (by code points). -/
def pyTake (n : Nat) (s : String) : String :=
  String.mk (s.data.take n)

/-- Python `sep.join(l)`. -/
def joinSep (sep : String) : List String → String
  | [] => ""
  | x :: xs => xs.foldl (fun acc y => acc ++ sep ++ y) x

/-- `True` iff the string ends with one of `'.'`, `'!'`, `'?'`. -/
def endsSentPunct (s : String) : Bool :=
  match s.data.getLast? with
  | some c => isSentPunct c
  | Option.none => false

/-!
## `hf_post` (lines 36-51)

The loop `for attempt in range(1, max_retries + 1)` is embedded structurally
on the number of remaining attempts.  The result is the pair of
  * the call's outcome (`some v`: the JSON of a 2xx response; `none`: the
    function raises — either re-raising the last `RequestException` when the
    final attempt fails, the spec's `RemoteCallExhausted`, or the
    `RuntimeError` when `max_retries = 0` and the loop body never runs), and
  * the list of back-off sleeps performed, in order: after failed attempt `k`
    that is not the last one the code sleeps `backoff ** attempt = 2 ^ k`.
-/

/-- One step of the retry loop of `hf_post`: `attempt` is the 1-based attempt
counter, `fuel` the number of attempts still allowed
(`max_retries - attempt + 1`). -/
def hfGo (att : Nat → Option PyVal) : Nat → Nat → Option PyVal × List Nat
  | _, 0 => (Option.none, [])
  | attempt, fuel + 1 =>
    match att attempt with
    | some v => (some v, [])
    | Option.none =>
      match fuel with
      | 0 => (Option.none, [])
      | _ + 1 =>
        let rest := hfGo att (attempt + 1) fuel
        (rest.1, 2 ^ attempt :: rest.2)

/-- `hf_post(text, timeout, max_retries)`; the HTTP request of each attempt is
abstracted by the oracle `att` (which is understood to close over the payload
text and the timeout). -/
def hf_post (att : Nat → Option PyVal) (max_retries : Nat) : Option PyVal × List Nat :=
  hfGo att 1 max_retries

/-!
## `extract_summary_from_response` (lines 53-70)
-/

/-- The inner loop `for key in ("summary_text", "generated_text", "text")`:
return the value of the first listed key that is present in the dict with a
string value, else `none`.  (`List.lookup` returns the value of the first
matching key, which coincides with Python dict lookup since Python dict keys
are unique.) -/
def firstStrField (keys : List String) (fields : List (String × PyVal)) : Option String :=
  match keys with
  | [] => Option.none
  | k :: ks =>
    match fields.lookup k with
    | some (PyVal.str s) => some s
    | _ => firstStrField ks fields

/-- The key preference list of `extract_summary_from_response`. -/
def summaryKeys : List String := ["summary_text", "generated_text", "text"]

/-- `extract_summary_from_response(resp)`.  A Lean `Option.none` result models
the Python function returning `None` ("no text found"); the function itself
never raises. -/
def extract_summary_from_response : PyVal → Option String
  | PyVal.none => Option.none
  | PyVal.str s => some s
  | PyVal.list [] => Option.none
  | PyVal.list (first :: _) =>
    match first with
    | PyVal.dict fields => firstStrField summaryKeys fields
    | PyVal.str s => some s
    | _ => Option.none
  | PyVal.dict fields => firstStrField summaryKeys fields
  | PyVal.other => Option.none

/-- The Response Extractor contract in the spec's words (§4.3 / C8), written
independently of the code for comparison: return the first text found by
checking, in order, the value itself if it is a plain string; if it is an
ordered sequence, its first element under the same string/field rules; if it
is a keyed structure, the first present string field among the fixed
preference list; absent if no rule matches. -/
def extractorSpec : PyVal → Option String
  | PyVal.str s => some s
  | PyVal.list (first :: _) =>
    match first with
    | PyVal.str s => some s
    | PyVal.dict fields => firstStrField summaryKeys fields
    | _ => Option.none
  | PyVal.dict fields => firstStrField summaryKeys fields
  | _ => Option.none

/-!
## `split_to_bullets` (lines 72-80)

`re.split(r'(?<=[\.\!\?])\s+', text.strip())` splits the stripped text at
every maximal whitespace run whose first character is immediately preceded by
one of `.`, `!`, `?`.  This is embedded as a character-by-character state
machine: `sep` records whether we are inside such a separator run, `cur` is
the current token in reverse, `acc` holds the finished tokens in reverse.
-/

/-- Head of the reversed current token, i.e. the character immediately
preceding the scan position; the lookbehind `(?<=[\.\!\?])` fails at the start
of the string and right after a separator (where the preceding character is
whitespace). -/
def prevIsPunct (cur : List Char) : Bool :=
  match cur with
  | c :: _ => isSentPunct c
  | [] => false

/-- State machine for `re.split(r'(?<=[\.\!\?])\s+', s)`. -/
def sentSplitGo : List Char → Bool → List Char → List (List Char) → List (List Char)
  | [], _, cur, acc => acc.reverse ++ [cur.reverse]
  | c :: rest, true, cur, acc =>
    if isPySpace c then sentSplitGo rest true cur acc
    else sentSplitGo rest false [c] acc
  | c :: rest, false, cur, acc =>
    if isPySpace c && prevIsPunct cur then
      sentSplitGo rest true [] (cur.reverse :: acc)
    else sentSplitGo rest false (c :: cur) acc

/-- `re.split(r'(?<=[\.\!\?])\s+', s)`. -/
def sentSplit (s : String) : List String :=
  (sentSplitGo s.data false [] []).map String.mk

/-- State machine for `re.split(r'[\n;]+', s)`: split at maximal runs of
newlines and semicolons (leading or trailing runs produce empty tokens, as in
Python). -/
def nlSemiSplitGo : List Char → Bool → List Char → List (List Char) → List (List Char)
  | [], _, cur, acc => acc.reverse ++ [cur.reverse]
  | c :: rest, true, cur, acc =>
    if c == '\n' || c == ';' then nlSemiSplitGo rest true cur acc
    else nlSemiSplitGo rest false [c] acc
  | c :: rest, false, cur, acc =>
    if c == '\n' || c == ';' then nlSemiSplitGo rest true [] (cur.reverse :: acc)
    else nlSemiSplitGo rest false (c :: cur) acc

/-- `re.split(r'[\n;]+', s)`. -/
def nlSemiSplit (s : String) : List String :=
  (nlSemiSplitGo s.data false [] []).map String.mk

/-- `split_to_bullets(text, max_points)`. -/
def split_to_bullets (text : String) (max_points : Nat) : List String :=
  if text = "" then []
  else
    let sentences := sentSplit (pyStrip text)
    let clean :=
      (sentences.filter fun s => 10 < (pyStrip s).length).map
        fun s => pyRstripPunct (pyStrip s)
    let clean :=
      if clean = [] then
        ((nlSemiSplit text).filter fun p => 10 < (pyStrip p).length).map pyStrip
      else clean
    clean.take max_points

/-!
## `bulletify_tasks` (lines 82-92)
-/

/-- The loop of `bulletify_tasks`: `dedup` is the accumulator; the membership
test `s not in seen` is expressed on `dedup` itself, since `seen` always holds
exactly the elements of `dedup`.  Note the loop breaks as soon as
`len(dedup) >= max_bullets`, checked after each element. -/
def bulletifyGo (max_bullets : Nat) : List String → List String → List String
  | [], dedup => dedup
  | t :: rest, dedup =>
    let s := pyStrip t
    let dedup2 := if s ≠ "" ∧ s ∉ dedup then dedup ++ [s] else dedup
    if max_bullets ≤ dedup2.length then dedup2
    else bulletifyGo max_bullets rest dedup2

/-- `bulletify_tasks(tasks_list, max_bullets)`.  Task entries arrive already
as strings (`str(t)` is the identity on strings). -/
def bulletify_tasks (tasks_list : List String) (max_bullets : Nat) : List String :=
  bulletifyGo max_bullets tasks_list []

/-!
## `summarize_team_tasks` (lines 94-143)
-/

/-- The dedup loop at the top of `summarize_team_tasks` (lines 95-101):
strip every entry, drop empties and values already seen, keep first-seen
order.  As in `bulletifyGo`, `seen` is identified with the accumulator. -/
def dedupStripGo : List String → List String → List String
  | [], acc => acc
  | t :: rest, acc =>
    let s := pyStrip t
    dedupStripGo rest (if s ≠ "" ∧ s ∉ acc then acc ++ [s] else acc)

/-- The deduplicated, stripped task list of `summarize_team_tasks`. -/
def dedupStrip (tasks_list : List String) : List String :=
  dedupStripGo tasks_list []

/-- Environment of one pipeline run: call index (0-based, in the order the
`hf_post` calls are made), payload text, attempt number ↦ outcome of that
HTTP attempt. -/
abbrev HfEnv := Nat → String → Nat → Option PyVal

/-- The guarded use of an extracted summary shared by the direct-call and the
combine stages: `if summary_text: points = split_to_bullets(...); if points:
return points`.  `summary_text` is the extracted text with Python falsiness
(`None` and `""` both fail the guard, modelled by `Option.getD ""` at the call
sites). -/
def usablePoints (summary_text : String) (max_points : Nat) : Option (List String) :=
  if summary_text ≠ "" then
    let points := split_to_bullets summary_text max_points
    if points ≠ [] then some points else Option.none
  else Option.none

/-- The direct-call attempt (lines 105-116): eligible when the deduped list
has at most 6 entries whose total character count is below 1200; one
`hf_post` call with `max_retries=3`; any exception is caught.  Returns the
points of an early `return` (or `none` to fall through) together with the
number of `hf_post` calls made. -/
def directStage (env : HfEnv) (dedup : List String) (max_points : Nat) :
    Option (List String) × Nat :=
  if dedup.length ≤ 6 ∧ (dedup.map String.length).sum < 1200 then
    let text := joinSep " . " dedup
    match (hf_post (env 0 text) 3).1 with
    | some resp =>
      (usablePoints ((extract_summary_from_response resp).getD "") max_points, 1)
    | Option.none => (Option.none, 1)
  else (Option.none, 0)

/-- One chunk of the chunked fallback (lines 121-129): on a successful call
the summary is used when truthy, else the joined chunk text truncated to 1000
characters (`chunk_summary or chunk_text[:1000]`); when the call raises, the
joined chunk text is appended with no truncation (line 129). -/
def chunkOne (outcome : Option PyVal) (chunk : List String) : String :=
  match outcome with
  | some resp =>
    let chunk_summary := (extract_summary_from_response resp).getD ""
    if chunk_summary ≠ "" then chunk_summary
    else pyTake 1000 (joinSep " . " chunk)
  | Option.none => joinSep " . " chunk

/-- The chunk loop (lines 118-129) over the already-built chunks, threading
the pipeline call index; each chunk makes one `hf_post` call with
`max_retries=2`.  Returns the chunk summaries and the next call index. -/
def chunkSummaries (env : HfEnv) : Nat → List (List String) → List String × Nat
  | k, [] => ([], k)
  | k, chunk :: rest =>
    let chunk_text := joinSep " . " chunk
    let outcome := (hf_post (env k chunk_text) 2).1
    let r := chunkSummaries env (k + 1) rest
    (chunkOne outcome chunk :: r.1, r.2)

/-- `dedup[i:i+10]` chunking of the loop `for i in range(0, len(dedup), 10)`,
embedded structurally with the list length as fuel. -/
def chunksOf10Go : Nat → List String → List (List String)
  | _, [] => []
  | 0, _ :: _ => []
  | fuel + 1, x :: rest => (x :: rest).take 10 :: chunksOf10Go fuel ((x :: rest).drop 10)

/-- The size-10 chunks of a list, in order. -/
def chunksOf10 (l : List String) : List (List String) :=
  chunksOf10Go l.length l

/-- The combine pass (lines 131-140): one `hf_post` call on the joined chunk
summaries with `max_retries=2`; exceptions caught; early return of the split
points when usable. -/
def combineStage (outcome : Option PyVal) (max_points : Nat) : Option (List String) :=
  match outcome with
  | some resp =>
    usablePoints ((extract_summary_from_response resp).getD "") max_points
  | Option.none => Option.none

/-- The whole of `summarize_team_tasks`, returning the list of bullet points
of the chosen terminal state (the code renders them as `"- " + p` joined by
newlines; the sentinel `"- No tasks reported."` corresponds to the singleton
`["No tasks reported."]`) together with the number of `hf_post` calls the run
makes. -/
def summarize_run (env : HfEnv) (tasks_list : List String) (max_points : Nat) :
    List String × Nat :=
  let dedup := dedupStrip tasks_list
  if dedup = [] then (["No tasks reported."], 0)
  else
    let d := directStage env dedup max_points
    match d.1 with
    | some points => (points, d.2)
    | Option.none =>
      let cs := chunkSummaries env d.2 (chunksOf10 dedup)
      let combined := joinSep " " cs.1
      match combineStage ((hf_post (env cs.2 combined) 2).1) max_points with
      | some points => (points, cs.2 + 1)
      | Option.none => (bulletify_tasks dedup max_points, cs.2 + 1)

/-- The rendering `"\n".join([f"- {p}" for p in points])` (and the sentinel
string for the empty case). -/
def renderBullets (points : List String) : String :=
  joinSep "\n" (points.map fun p => "- " ++ p)

/-- `summarize_team_tasks(tasks_list, max_points)`: the returned text block. -/
def summarize_team_tasks (env : HfEnv) (tasks_list : List String)
    (max_points : Nat) : String :=
  renderBullets (summarize_run env tasks_list max_points).1

/-!
## Helper lemmas on the string primitives
-/

lemma dropWhile_head_not {α : Type} {p : α → Bool} :
    ∀ {l : List α} {x : α}, (List.dropWhile p l).head? = some x → p x = false := by
  intro l
  induction l with
  | nil => intro x h; simp [List.dropWhile] at h
  | cons a t ih =>
    intro x h
    rw [List.dropWhile_cons] at h
    by_cases ha : p a = true
    · rw [if_pos ha] at h; exact ih h
    · rw [if_neg ha] at h
      simp only [List.head?] at h
      cases h
      simpa using ha

lemma dropWhile_eq_self_of_head {α : Type} {p : α → Bool} {l : List α}
    (h : ∀ x, l.head? = some x → p x = false) : List.dropWhile p l = l := by
  cases l with
  | nil => rfl
  | cons a t =>
    rw [List.dropWhile_cons, if_neg]
    simp [h a rfl]

lemma dropWhile_idem {α : Type} {p : α → Bool} {l : List α} :
    List.dropWhile p (List.dropWhile p l) = List.dropWhile p l :=
  dropWhile_eq_self_of_head fun _ hx => dropWhile_head_not hx

lemma pyStripList_prefix (l : List Char) :
    pyStripList l <+: l.dropWhile isPySpace := by
  have h := List.dropWhile_suffix (l := (l.dropWhile isPySpace).reverse) isPySpace
  apply List.reverse_suffix.mp
  rw [show (pyStripList l).reverse
      = List.dropWhile isPySpace ((l.dropWhile isPySpace).reverse) from
      List.reverse_reverse _]
  exact h

lemma dropWhile_pyStripList (l : List Char) :
    List.dropWhile isPySpace (pyStripList l) = pyStripList l := by
  apply dropWhile_eq_self_of_head
  intro x hx
  obtain ⟨t, ht⟩ := pyStripList_prefix l
  have hh : (l.dropWhile isPySpace).head? = some x := by
    rw [← ht, List.head?_append, hx]; rfl
  exact dropWhile_head_not hh

lemma pyStripList_idem (l : List Char) :
    pyStripList (pyStripList l) = pyStripList l := by
  have h1 := dropWhile_pyStripList l
  have h2 : (pyStripList l).reverse
      = List.dropWhile isPySpace ((l.dropWhile isPySpace).reverse) :=
    List.reverse_reverse _
  calc pyStripList (pyStripList l)
      = (((pyStripList l).dropWhile isPySpace).reverse.dropWhile isPySpace).reverse := rfl
    _ = ((pyStripList l).reverse.dropWhile isPySpace).reverse := by rw [h1]
    _ = ((pyStripList l).reverse).reverse := by rw [h2, dropWhile_idem, ← h2]
    _ = pyStripList l := List.reverse_reverse _

lemma pyStrip_idem (s : String) : pyStrip (pyStrip s) = pyStrip s :=
  congrArg String.mk (pyStripList_idem s.data)

lemma string_eq_empty_iff {s : String} : s = "" ↔ s.data = [] := by
  cases s with
  | mk l =>
    constructor
    · intro h; rw [h]
    · intro h; rw [show l = ([] : List Char) from h]

lemma pyStrip_length_ne {s : String} (h : 10 < (pyStrip s).length) :
    pyStrip s ≠ "" := by
  intro hc
  rw [hc] at h
  simp [String.length] at h

lemma endsSentPunct_pyRstripPunct (s : String) :
    endsSentPunct (pyRstripPunct s) = false := by
  show (match ((s.data.reverse.dropWhile isSentPunct).reverse).getLast? with
        | some c => isSentPunct c
        | Option.none => false) = false
  rw [List.getLast?_eq_head?_reverse, List.reverse_reverse]
  rcases hx : (s.data.reverse.dropWhile isSentPunct).head? with _ | c
  · rfl
  · simpa using dropWhile_head_not hx

/-!
## Lemmas on `split_to_bullets`
-/

lemma split_to_bullets_length_le (text : String) (m : Nat) :
    (split_to_bullets text m).length ≤ m := by
  unfold split_to_bullets
  split
  · simp
  · exact List.length_take_le _ _

/-- Every returned bullet is either the whitespace-stripped,
punctuation-rstripped form of a sentence unit whose stripped length exceeds
10, or (on the newline/semicolon fallback) the stripped form of a part whose
stripped length exceeds 10. -/
lemma split_to_bullets_mem {text : String} {m : Nat} {b : String}
    (hb : b ∈ split_to_bullets text m) :
    ∃ u, 10 < (pyStrip u).length ∧
      (b = pyRstripPunct (pyStrip u) ∨ b = pyStrip u) := by
  unfold split_to_bullets at hb
  split at hb
  · simp at hb
  · have hb' := List.take_subset _ _ hb
    split at hb'
    · rw [List.mem_map] at hb'
      obtain ⟨p, hp, hbp⟩ := hb'
      rw [List.mem_filter] at hp
      exact ⟨p, by simpa using hp.2, Or.inr hbp.symm⟩
    · rw [List.mem_map] at hb'
      obtain ⟨s, hs, hbs⟩ := hb'
      rw [List.mem_filter] at hs
      exact ⟨s, by simpa using hs.2, Or.inl hbs.symm⟩

lemma split_to_bullets_shape {text : String} {m : Nat} {b : String}
    (hb : b ∈ split_to_bullets text m) :
    endsSentPunct b = false ∨ (b ≠ "" ∧ pyStrip b = b) := by
  obtain ⟨u, hu, hb'⟩ := split_to_bullets_mem hb
  rcases hb' with h | h
  · exact Or.inl (h ▸ endsSentPunct_pyRstripPunct (pyStrip u))
  · refine Or.inr ⟨h ▸ pyStrip_length_ne hu, ?_⟩
    rw [h]; exact pyStrip_idem u

/-!
## Lemmas on the dedup loop of `summarize_team_tasks`
-/

lemma dedupStripGo_spec :
    ∀ (l acc : List String), ∃ suf,
      dedupStripGo l acc = acc ++ suf ∧
      List.Sublist suf (l.map pyStrip) ∧
      ∀ s ∈ suf, s ≠ "" ∧ pyStrip s = s := by
  intro l
  induction l with
  | nil =>
    intro acc
    exact ⟨[], (List.append_nil acc).symm, List.nil_sublist _, by simp⟩
  | cons t rest ih =>
    intro acc
    show ∃ suf, dedupStripGo rest
        (if pyStrip t ≠ "" ∧ pyStrip t ∉ acc then acc ++ [pyStrip t] else acc)
        = acc ++ suf ∧ _ ∧ _
    by_cases hg : pyStrip t ≠ "" ∧ pyStrip t ∉ acc
    · rw [if_pos hg]
      obtain ⟨suf, h1, h2, h3⟩ := ih (acc ++ [pyStrip t])
      refine ⟨pyStrip t :: suf, ?_, ?_, ?_⟩
      · rw [h1, List.append_assoc]; rfl
      · exact List.Sublist.cons₂ _ h2
      · intro s hs
        rcases List.mem_cons.mp hs with h | h
        · exact ⟨h ▸ hg.1, h ▸ pyStrip_idem t⟩
        · exact h3 s h
    · rw [if_neg hg]
      obtain ⟨suf, h1, h2, h3⟩ := ih acc
      exact ⟨suf, h1, List.Sublist.cons _ h2, h3⟩

lemma dedupStrip_sublist (l : List String) :
    List.Sublist (dedupStrip l) (l.map pyStrip) := by
  obtain ⟨suf, h1, h2, _⟩ := dedupStripGo_spec l []
  unfold dedupStrip
  rw [h1, List.nil_append]
  exact h2

lemma dedupStrip_mem {l : List String} {s : String} (hs : s ∈ dedupStrip l) :
    s ≠ "" ∧ pyStrip s = s := by
  obtain ⟨suf, h1, _, h3⟩ := dedupStripGo_spec l []
  unfold dedupStrip at hs
  rw [h1, List.nil_append] at hs
  exact h3 s hs

lemma dedupStripGo_nodup :
    ∀ (l acc : List String), acc.Nodup → (dedupStripGo l acc).Nodup := by
  intro l
  induction l with
  | nil => intro acc h; exact h
  | cons t rest ih =>
    intro acc hacc
    show (dedupStripGo rest
        (if pyStrip t ≠ "" ∧ pyStrip t ∉ acc then acc ++ [pyStrip t] else acc)).Nodup
    by_cases hg : pyStrip t ≠ "" ∧ pyStrip t ∉ acc
    · rw [if_pos hg]
      refine ih _ ?_
      rw [List.nodup_append_comm]
      exact List.nodup_cons.mpr ⟨hg.2, hacc⟩
    · rw [if_neg hg]
      exact ih acc hacc

lemma dedupStrip_nodup (l : List String) : (dedupStrip l).Nodup :=
  dedupStripGo_nodup l [] List.nodup_nil

lemma dedupStripGo_blank :
    ∀ (l : List String), (∀ t ∈ l, pyStrip t = "") →
      ∀ acc, dedupStripGo l acc = acc := by
  intro l
  induction l with
  | nil => intro _ acc; rfl
  | cons t rest ih =>
    intro h acc
    show dedupStripGo rest
        (if pyStrip t ≠ "" ∧ pyStrip t ∉ acc then acc ++ [pyStrip t] else acc) = acc
    rw [if_neg (by simp [h t (List.mem_cons_self t rest)])]
    exact ih (fun x hx => h x (List.mem_cons_of_mem t hx)) acc

/-- The dedup loop is exactly `List.eraseDups.loop` run on the stripped,
blank-filtered entries, with the loop's reversed kept-list standing for the
accumulator: core `List.eraseDups` keeps the first occurrence of every value
in order, which is precisely the Python loop's `s not in seen` policy. -/
lemma dedupStripGo_eraseDups_loop :
    ∀ (l acc : List String),
      dedupStripGo l acc
        = List.eraseDups.loop ((l.map pyStrip).filter fun s => s ≠ "") acc.reverse := by
  intro l
  induction l with
  | nil =>
    intro acc
    show acc = List.eraseDups.loop [] acc.reverse
    simp [List.eraseDups.loop]
  | cons t rest ih =>
    intro acc
    show dedupStripGo rest
        (if pyStrip t ≠ "" ∧ pyStrip t ∉ acc then acc ++ [pyStrip t] else acc)
      = List.eraseDups.loop (((t :: rest).map pyStrip).filter fun s => s ≠ "") acc.reverse
    by_cases hb : pyStrip t = ""
    · have hg : (if pyStrip t ≠ "" ∧ pyStrip t ∉ acc then acc ++ [pyStrip t] else acc) = acc :=
        if_neg (fun hc => hc.1 hb)
      have hf : (((t :: rest).map pyStrip).filter fun s => s ≠ "")
          = (rest.map pyStrip).filter fun s => s ≠ "" := by
        simp [hb]
      rw [hg, hf]
      exact ih acc
    · have hf : (((t :: rest).map pyStrip).filter fun s => s ≠ "")
          = pyStrip t :: ((rest.map pyStrip).filter fun s => s ≠ "") := by
        simp [hb]
      rw [hf]
      by_cases hm : pyStrip t ∈ acc
      · have hg : (if pyStrip t ≠ "" ∧ pyStrip t ∉ acc then acc ++ [pyStrip t] else acc) = acc :=
          if_neg (fun hc => hc.2 hm)
        have hl : List.eraseDups.loop
            (pyStrip t :: ((rest.map pyStrip).filter fun s => s ≠ "")) acc.reverse
            = List.eraseDups.loop ((rest.map pyStrip).filter fun s => s ≠ "") acc.reverse := by
          simp [List.eraseDups.loop, List.elem_iff, List.mem_reverse, hm]
        rw [hg, hl]
        exact ih acc
      · have hg : (if pyStrip t ≠ "" ∧ pyStrip t ∉ acc then acc ++ [pyStrip t] else acc)
            = acc ++ [pyStrip t] := if_pos ⟨hb, hm⟩
        have hl : List.eraseDups.loop
            (pyStrip t :: ((rest.map pyStrip).filter fun s => s ≠ "")) acc.reverse
            = List.eraseDups.loop ((rest.map pyStrip).filter fun s => s ≠ "")
                (pyStrip t :: acc.reverse) := by
          simp [List.eraseDups.loop, List.elem_iff, List.mem_reverse, hm]
        rw [hg, hl]
        rw [show pyStrip t :: acc.reverse = (acc ++ [pyStrip t]).reverse from by simp]
        exact ih (acc ++ [pyStrip t])

/-- Exact characterization of the dedup step: it equals the first-occurrence
deduplication (`List.eraseDups`) of the stripped input with blanks removed. -/
lemma dedupStrip_eq_eraseDups (l : List String) :
    dedupStrip l = ((l.map pyStrip).filter fun s => s ≠ "").eraseDups :=
  dedupStripGo_eraseDups_loop l []

lemma dedupStripGo_mem :
    ∀ (l acc : List String) (s : String),
      s ∈ dedupStripGo l acc ↔ (s ∈ acc ∨ (s ≠ "" ∧ s ∈ l.map pyStrip)) := by
  intro l
  induction l with
  | nil => intro acc s; simp [dedupStripGo]
  | cons t rest ih =>
    intro acc s
    show s ∈ dedupStripGo rest
        (if pyStrip t ≠ "" ∧ pyStrip t ∉ acc then acc ++ [pyStrip t] else acc) ↔ _
    rw [ih]
    by_cases hg : pyStrip t ≠ "" ∧ pyStrip t ∉ acc
    · rw [if_pos hg]
      simp only [List.mem_append, List.map_cons, List.mem_cons, List.not_mem_nil, or_false]
      constructor
      · rintro ((h | h) | ⟨h1, h2⟩)
        · exact Or.inl h
        · exact Or.inr ⟨h ▸ hg.1, Or.inl h⟩
        · exact Or.inr ⟨h1, Or.inr h2⟩
      · rintro (h | ⟨h1, h2 | h2⟩)
        · exact Or.inl (Or.inl h)
        · exact Or.inl (Or.inr h2)
        · exact Or.inr ⟨h1, h2⟩
    · rw [if_neg hg]
      push_neg at hg
      simp only [List.map_cons, List.mem_cons]
      constructor
      · rintro (h | ⟨h1, h2⟩)
        · exact Or.inl h
        · exact Or.inr ⟨h1, Or.inr h2⟩
      · rintro (h | ⟨h1, h2 | h2⟩)
        · exact Or.inl h
        · exact Or.inl (h2 ▸ hg (h2 ▸ h1))
        · exact Or.inr ⟨h1, h2⟩

/-- Completeness and soundness of the dedup step's members: exactly the
non-blank stripped values of the input survive. -/
lemma dedupStrip_mem_iff (l : List String) (s : String) :
    s ∈ dedupStrip l ↔ (s ≠ "" ∧ s ∈ l.map pyStrip) := by
  unfold dedupStrip
  rw [dedupStripGo_mem l [] s]
  simp

/-!
## Lemmas on `bulletify_tasks`
-/

lemma bulletifyGo_length_mono (m : Nat) :
    ∀ (l acc : List String), acc.length ≤ (bulletifyGo m l acc).length := by
  intro l
  induction l with
  | nil => intro acc; exact le_refl _
  | cons t rest ih =>
    intro acc
    show acc.length ≤ (let s := pyStrip t;
      let dedup2 := if s ≠ "" ∧ s ∉ acc then acc ++ [s] else acc;
      if m ≤ dedup2.length then dedup2 else bulletifyGo m rest dedup2).length
    dsimp only
    split
    · split
      · simp
      · exact le_trans (by simp) (ih (acc ++ [pyStrip t]))
    · split
      · exact le_refl _
      · exact ih acc

lemma bulletifyGo_length_le (m : Nat) :
    ∀ (l acc : List String), acc.length < m → (bulletifyGo m l acc).length ≤ m := by
  intro l
  induction l with
  | nil => intro acc h; exact le_of_lt h
  | cons t rest ih =>
    intro acc hacc
    show (let s := pyStrip t;
      let dedup2 := if s ≠ "" ∧ s ∉ acc then acc ++ [s] else acc;
      if m ≤ dedup2.length then dedup2 else bulletifyGo m rest dedup2).length ≤ m
    dsimp only
    split
    · split
      · next h =>
        simp only [List.length_append, List.length_cons, List.length_nil]
        omega
      · next h =>
        refine ih _ ?_
        simp only [List.length_append, List.length_cons, List.length_nil] at h ⊢
        omega
    · split
      · exact le_of_lt hacc
      · exact ih acc hacc

lemma bulletify_tasks_bounds {d : String} (ds : List String) {m : Nat}
    (h1 : pyStrip d = d) (h2 : d ≠ "") (hm : 1 ≤ m) :
    1 ≤ (bulletify_tasks (d :: ds) m).length ∧
      (bulletify_tasks (d :: ds) m).length ≤ m := by
  unfold bulletify_tasks
  simp only [bulletifyGo]
  rw [h1]
  have hg : (if d ≠ "" ∧ d ∉ ([] : List String) then [] ++ [d] else []) = [d] := by
    rw [if_pos ⟨h2, by simp⟩]; rfl
  rw [hg]
  split
  · next hm1 => exact ⟨by simp, by simpa using hm⟩
  · next hm1 =>
    constructor
    · simpa using bulletifyGo_length_mono m ds [d]
    · refine bulletifyGo_length_le m ds [d] ?_
      simp only [List.length_cons, List.length_nil] at hm1 ⊢
      omega

/-!
## Lemmas on the pipeline stages
-/

lemma usablePoints_some {t : String} {m : Nat} {pts : List String}
    (h : usablePoints t m = some pts) : pts ≠ [] ∧ pts.length ≤ m := by
  unfold usablePoints at h
  split at h
  · dsimp only at h
    split at h
    · next hne =>
      injection h with h
      exact h ▸ ⟨hne, split_to_bullets_length_le t m⟩
    · exact absurd h (by simp)
  · exact absurd h (by simp)

lemma directStage_fst_some {env : HfEnv} {dedup : List String} {m : Nat}
    {pts : List String} (h : (directStage env dedup m).1 = some pts) :
    pts ≠ [] ∧ pts.length ≤ m := by
  unfold directStage at h
  split at h
  · dsimp only at h
    split at h
    · exact usablePoints_some h
    · exact absurd h (by simp)
  · exact absurd h (by simp)

lemma combineStage_some {o : Option PyVal} {m : Nat} {pts : List String}
    (h : combineStage o m = some pts) : pts ≠ [] ∧ pts.length ≤ m := by
  unfold combineStage at h
  split at h
  · exact usablePoints_some h
  · exact absurd h (by simp)

/-- On every path and for every behaviour of the remote summarizer, the
pipeline's bullet list with `max_points = 5` has between 1 and 5 entries. -/
lemma summarize_run_len (env : HfEnv) (tasks : List String) :
    1 ≤ ((summarize_run env tasks 5).1).length ∧
      ((summarize_run env tasks 5).1).length ≤ 5 := by
  simp only [summarize_run]
  split
  · simp
  · next hd =>
    split
    · next points heq => exact ⟨by
        have := (directStage_fst_some heq).1
        cases points with
        | nil => exact absurd rfl this
        | cons p ps => simp, (directStage_fst_some heq).2⟩
    · split
      · next points heq => exact ⟨by
          have := (combineStage_some heq).1
          cases points with
          | nil => exact absurd rfl this
          | cons p ps => simp, (combineStage_some heq).2⟩
      · rcases hne : dedupStrip tasks with _ | ⟨d, ds⟩
        · exact absurd hne hd
        · have hdm := dedupStrip_mem (l := tasks) (s := d)
            (by rw [hne]; exact List.mem_cons_self d ds)
          exact bulletify_tasks_bounds ds hdm.2 hdm.1 (by omega)

lemma joinSep_foldl_length (sep : String) :
    ∀ (l : List String) (a : String),
      a.length ≤ (l.foldl (fun acc y => acc ++ sep ++ y) a).length := by
  intro l
  induction l with
  | nil => intro a; exact le_refl _
  | cons y t ih =>
    intro a
    simp only [List.foldl_cons]
    calc a.length ≤ (a ++ sep ++ y).length := by
          rw [String.length_append, String.length_append]; omega
      _ ≤ _ := ih _

lemma renderBullets_ne_empty {points : List String} (h : points ≠ []) :
    renderBullets points ≠ "" := by
  rcases points with _ | ⟨p, rest⟩
  · exact absurd rfl h
  · unfold renderBullets
    simp only [List.map_cons, joinSep]
    intro hcontra
    have hlen := joinSep_foldl_length "\n" (rest.map fun q => "- " ++ q) ("- " ++ p)
    rw [hcontra] at hlen
    rw [String.length_append] at hlen
    have h0 : ("" : String).length = 0 := rfl
    have h2 : ("- " : String).length = 2 := rfl
    omega

/-!
## Claim theorems
-/

/-- C1: for every non-empty team task list and every behaviour of the remote
summarizer, `summarize_team_tasks` with `max_points = 5` produces a Summary
Result of between 1 and 5 bullets — never empty and never above the
configured maximum — on every path (direct call, chunked + combine, final
fallback, and the sentinel). -/
theorem C1_pipeline_bullet_bounds (env : HfEnv) (tasks : List String)
    (h : tasks ≠ []) :
    1 ≤ ((summarize_run env tasks 5).1).length ∧
      ((summarize_run env tasks 5).1).length ≤ 5 :=
  summarize_run_len env tasks

theorem C1_pipeline_bullet_bounds_witness :
    (["Alpha task done", "Beta task done"] : List String) ≠ [] ∧
      (1 ≤ ((summarize_run (fun _ _ _ => Option.none)
              ["Alpha task done", "Beta task done"] 5).1).length ∧
        ((summarize_run (fun _ _ _ => Option.none)
              ["Alpha task done", "Beta task done"] 5).1).length ≤ 5) :=
  ⟨by decide,
   C1_pipeline_bullet_bounds (fun _ _ _ => Option.none)
     ["Alpha task done", "Beta task done"] (by decide)⟩

/-- C2: `summarize_team_tasks` is total — for every input list and every
behaviour of the remote summarizer client (success, malformed response, or
failure after retries, all captured by the oracle `env`) it yields a
non-empty bullet list and a non-empty rendered Summary Result; client
failures only degrade the pipeline to the next stage. -/
theorem C2_pipeline_never_raises (env : HfEnv) (tasks : List String) :
    (summarize_run env tasks 5).1 ≠ [] ∧
      summarize_team_tasks env tasks 5 ≠ "" := by
  have h := summarize_run_len env tasks
  have hne : (summarize_run env tasks 5).1 ≠ [] := by
    intro hc
    rw [hc] at h
    simp at h
  exact ⟨hne, renderBullets_ne_empty hne⟩

theorem C2_pipeline_never_raises_witness :
    (summarize_run (fun _ _ _ => Option.none) ["Alpha task done"] 5).1 ≠ [] ∧
      summarize_team_tasks (fun _ _ _ => Option.none) ["Alpha task done"] 5 ≠ "" :=
  C2_pipeline_never_raises (fun _ _ _ => Option.none) ["Alpha task done"]

/-- C3: for the empty team task list the pipeline returns exactly the
sentinel "No tasks reported" result and makes zero remote summarizer calls,
for every behaviour of the client. -/
theorem C3_empty_input_sentinel (env : HfEnv) :
    summarize_run env [] 5 = (["No tasks reported."], 0) ∧
      summarize_team_tasks env [] 5 = "- No tasks reported." :=
  ⟨rfl, rfl⟩

/-- C4: `hf_post` with `max_retries = 3` returns the successful third
attempt's result after failed attempts 1 and 2, sleeping `2 ^ k` time units
after failed attempt `k` (waits 2 then 4); when all three attempts fail it
raises (modelled as a `none` outcome: the exhaustion failure propagates to
the caller) after the same wait schedule. -/
theorem C4_hf_post_retry (att att' : Nat → Option PyVal) (v : PyVal)
    (h1 : att 1 = Option.none) (h2 : att 2 = Option.none) (h3 : att 3 = some v)
    (h4 : att' 1 = Option.none) (h5 : att' 2 = Option.none)
    (h6 : att' 3 = Option.none) :
    hf_post att 3 = (some v, [2, 4]) ∧
      hf_post att' 3 = (Option.none, [2, 4]) := by
  constructor
  · show hfGo att 1 3 = _
    simp [hfGo, h1, h2, h3]
  · show hfGo att' 1 3 = _
    simp [hfGo, h4, h5, h6]

theorem C4_hf_post_retry_witness :
    hf_post (fun k => match k with | 3 => some PyVal.other | _ => Option.none) 3
        = (some PyVal.other, [2, 4]) ∧
      hf_post (fun _ => Option.none) 3 = (Option.none, [2, 4]) :=
  C4_hf_post_retry
    (fun k => match k with | 3 => some PyVal.other | _ => Option.none)
    (fun _ => Option.none) PyVal.other rfl rfl rfl rfl rfl rfl

/-- C5 counterexample: on the exact input of the claim,
`split_to_bullets "Did A. Did B! Did C?"` does NOT return
`["Did A", "Did B", "Did C"]` — every sentence unit has stripped length 6,
below the `> 10` threshold, so the sentence pass yields nothing and the
newline/semicolon fallback returns the whole text as a single bullet. -/
theorem C5_split_example_counterexample :
    split_to_bullets "Did A. Did B! Did C?" 5 = ["Did A. Did B! Did C?"] ∧
      split_to_bullets "Did A. Did B! Did C?" 5 ≠ ["Did A", "Did B", "Did C"] := by
  constructor
  · rfl
  · decide

/-- C5 amended: on `"Did A. Did B! Did C?"` the result is the single fallback
bullet `["Did A. Did B! Did C?"]`; the claimed three-way split with stripped
punctuation is obtained once each sentence exceeds the 10-character
threshold, e.g. for `"Completed item A. Completed item B! Completed item C?"`
(order preserved, punctuation stripped). -/
theorem C5_split_example_amended :
    split_to_bullets "Did A. Did B! Did C?" 5 = ["Did A. Did B! Did C?"] ∧
      split_to_bullets "Completed item A. Completed item B! Completed item C?" 5
        = ["Completed item A", "Completed item B", "Completed item C"] := by
  constructor
  · rfl
  · rfl

/-- C6 counterexample: in the chunked-fallback stage, when the chunk's call
raises, the substituted string is NOT truncated to 1000 characters: for a
chunk whose joined text is 1001 characters long, the substituted "summary" is
the full 1001-character text. -/
theorem C6_chunk_failure_counterexample :
    chunkOne Option.none [String.mk (List.replicate 1001 'a')]
        = String.mk (List.replicate 1001 'a') ∧
      1000 < (chunkOne Option.none [String.mk (List.replicate 1001 'a')]).length := by
  constructor
  · rfl
  · show 1000 < (List.replicate 1001 'a').length
    rw [List.length_replicate]
    omega

/-- C6 amended: when a chunk's summarizer call raises, the substituted string
is the joined raw chunk text with NO truncation; the 1000-character
truncation applies only on the other branch, where the call succeeds but
yields no usable summary text. -/
theorem C6_chunk_failure_amended (chunk : List String) (v : PyVal)
    (h : extract_summary_from_response v = Option.none) :
    chunkOne Option.none chunk = joinSep " . " chunk ∧
      chunkOne (some v) chunk = pyTake 1000 (joinSep " . " chunk) := by
  constructor
  · rfl
  · simp [chunkOne, h]

theorem C6_chunk_failure_amended_witness :
    extract_summary_from_response PyVal.other = Option.none ∧
      (chunkOne Option.none ["task entry"] = joinSep " . " ["task entry"] ∧
        chunkOne (some PyVal.other) ["task entry"]
          = pyTake 1000 (joinSep " . " ["task entry"])) :=
  ⟨rfl, C6_chunk_failure_amended ["task entry"] PyVal.other rfl⟩

/-- C7 counterexample: bullets returned by `split_to_bullets` can carry
trailing whitespace (`"hello there ..."` → `["hello there "]`: `rstrip('.!?')`
stops at the space), can be empty (`"!!!!!!!!!!!"` → `[""]`), and on the
fallback path can end with terminal punctuation
(`"Do X now! Do Y now! Do Z now!"` comes back whole, ending in `'!'`); the
10-character threshold is also measured before punctuation-trimming, not
after. -/
theorem C7_bullet_shape_counterexample :
    split_to_bullets "hello there ..." 5 = ["hello there "] ∧
      pyStrip "hello there " ≠ "hello there " ∧
      split_to_bullets "!!!!!!!!!!!" 5 = [""] ∧
      split_to_bullets "Do X now! Do Y now! Do Z now!" 5
        = ["Do X now! Do Y now! Do Z now!"] ∧
      endsSentPunct "Do X now! Do Y now! Do Z now!" = true := by
  refine ⟨rfl, by decide, rfl, rfl, rfl⟩

/-- C7 amended: every bullet returned by `split_to_bullets` comes from a unit
whose whitespace-stripped length exceeds 10 characters measured BEFORE
trailing-punctuation removal, and is either a sentence-pass bullet (stripped
then `rstrip('.!?')`-ed, hence never ending in `.`, `!` or `?`, though
possibly empty or with trailing whitespace) or a fallback bullet (stripped,
hence non-empty and trimmed, though possibly ending in punctuation). -/
theorem C7_bullet_shape_amended (text : String) (m : Nat) (b : String)
    (hb : b ∈ split_to_bullets text m) :
    (endsSentPunct b = false ∨ (b ≠ "" ∧ pyStrip b = b)) ∧
      ∃ u, 10 < (pyStrip u).length ∧
        (b = pyRstripPunct (pyStrip u) ∨ b = pyStrip u) :=
  ⟨split_to_bullets_shape hb, split_to_bullets_mem hb⟩

theorem C7_bullet_shape_amended_witness :
    "hello there " ∈ split_to_bullets "hello there ..." 5 ∧
      ((endsSentPunct "hello there " = false ∨
          ("hello there " ≠ "" ∧ pyStrip "hello there " = "hello there ")) ∧
        ∃ u, 10 < (pyStrip u).length ∧
          ("hello there " = pyRstripPunct (pyStrip u) ∨
            "hello there " = pyStrip u)) :=
  ⟨by decide, C7_bullet_shape_amended "hello there ..." 5 "hello there " (by decide)⟩

/-- C8: `extract_summary_from_response` coincides with the spec's ordered
extraction rules on every API Response value (so an unrecognized shape yields
absent, never an exception); in particular a keyed structure exposing a
string under "summary_text" yields exactly that field's value, and a bare
string yields itself. -/
theorem C8_extractor_rules :
    (∀ v : PyVal, extract_summary_from_response v = extractorSpec v) ∧
      (∀ s : String, extract_summary_from_response (PyVal.str s) = some s) ∧
      (∀ (fields : List (String × PyVal)) (s : String),
        fields.lookup "summary_text" = some (PyVal.str s) →
          extract_summary_from_response (PyVal.dict fields) = some s) ∧
      extract_summary_from_response PyVal.other = Option.none ∧
      extract_summary_from_response PyVal.none = Option.none ∧
      extract_summary_from_response (PyVal.list []) = Option.none := by
  refine ⟨?_, fun s => rfl, ?_, rfl, rfl, rfl⟩
  · intro v
    cases v with
    | none => rfl
    | str s => rfl
    | dict fields => rfl
    | other => rfl
    | list xs =>
      cases xs with
      | nil => rfl
      | cons first rest => cases first <;> rfl
  · intro fields s h
    show firstStrField summaryKeys fields = some s
    show (match fields.lookup "summary_text" with
          | some (PyVal.str s) => some s
          | _ => firstStrField ["generated_text", "text"] fields) = some s
    rw [h]

theorem C8_extractor_rules_witness :
    extract_summary_from_response
        (PyVal.dict [("summary_text", PyVal.str "done")]) = some "done" ∧
      extract_summary_from_response (PyVal.str "raw") = some "raw" ∧
      extract_summary_from_response PyVal.other = Option.none :=
  ⟨C8_extractor_rules.2.2.1 [("summary_text", PyVal.str "done")] "done" rfl,
   C8_extractor_rules.2.1 "raw",
   C8_extractor_rules.2.2.2.1⟩

/-- C9: the Deduplicator — the dedup step of `summarize_team_tasks` — is,
for every input list, exactly the first-occurrence deduplication
(`List.eraseDups`, which keeps each value's first occurrence in order) of the
stripped input with blank entries removed; consequently its output is
duplicate-free, a sublist of the stripped input, contains precisely the
non-blank stripped values (completeness and soundness of membership), all of
them trimmed, and empty input yields empty output with no error
conditions. -/
theorem C9_dedup_contract :
    (∀ xs : List String,
        dedupStrip xs = ((xs.map pyStrip).filter fun s => s ≠ "").eraseDups) ∧
      (∀ xs : List String, (dedupStrip xs).Nodup) ∧
      (∀ xs : List String, List.Sublist (dedupStrip xs) (xs.map pyStrip)) ∧
      (∀ (xs : List String) (s : String),
        s ∈ dedupStrip xs ↔ (s ≠ "" ∧ s ∈ xs.map pyStrip)) ∧
      (∀ xs : List String, ∀ s ∈ dedupStrip xs, pyStrip s = s) ∧
      dedupStrip [] = [] :=
  ⟨fun xs => dedupStrip_eq_eraseDups xs,
   fun xs => dedupStrip_nodup xs,
   fun xs => dedupStrip_sublist xs,
   fun xs s => dedupStrip_mem_iff xs s,
   fun _ _ hs => (dedupStrip_mem hs).2,
   rfl⟩

theorem C9_dedup_contract_witness :
    dedupStrip ["  a  ", "a", "", "b", "a"]
        = (((["  a  ", "a", "", "b", "a"] : List String).map pyStrip).filter
            fun s => s ≠ "").eraseDups ∧
      (dedupStrip ["  a  ", "a", "", "b", "a"]).Nodup ∧
      ("b" ∈ dedupStrip ["  a  ", "a", "", "b", "a"] ↔
        ("b" ≠ "" ∧ "b" ∈ (["  a  ", "a", "", "b", "a"] : List String).map pyStrip)) ∧
      dedupStrip [] = [] :=
  ⟨C9_dedup_contract.1 ["  a  ", "a", "", "b", "a"],
   C9_dedup_contract.2.1 ["  a  ", "a", "", "b", "a"],
   C9_dedup_contract.2.2.2.1 ["  a  ", "a", "", "b", "a"] "b",
   C9_dedup_contract.2.2.2.2.2⟩

/-- C10: a non-empty list whose entries are all blank after stripping is
treated exactly like the empty list — the sentinel "No tasks reported" result
with zero remote summarizer calls — because emptiness is judged on the
deduplicated, trimmed entries, not the raw list length. -/
theorem C10_blank_input_sentinel (env : HfEnv) (tasks : List String)
    (hne : tasks ≠ []) (hblank : ∀ t ∈ tasks, pyStrip t = "") :
    summarize_run env tasks 5 = (["No tasks reported."], 0) := by
  have hd : dedupStrip tasks = [] := dedupStripGo_blank tasks hblank []
  simp [summarize_run, hd]

theorem C10_blank_input_sentinel_witness :
    ((["", "   "] : List String) ≠ [] ∧
        ∀ t ∈ (["", "   "] : List String), pyStrip t = "") ∧
      summarize_run (fun _ _ _ => Option.none) ["", "   "] 5
        = (["No tasks reported."], 0) :=
  ⟨⟨by decide, by decide⟩,
   C10_blank_input_sentinel (fun _ _ _ => Option.none) ["", "   "]
     (by decide) (by decide)⟩

end DailyReport
